import Mathlib

/-!
Verification development for the MAYA learning service
(`src/maya_learn/monitor.py`, `patterns.py`, `service.py`, `config.py`).

Shallow embedding conventions:
* Python floats are modelled as rationals (ℚ); Python ints as ℤ/ℕ.
* Python dicts are insertion-ordered association lists.
* Fallible Python code is modelled with explicit error values (`PyErr`);
  a `try/except Exception` block is modelled by a total function that
  returns the partial state accumulated before the error.
* The `hashlib.md5(..).hexdigest()[:8]` digest is modelled by a concrete
  deterministic 8-hex-character digest function; every claim about ids
  depends only on the digest being a function of its input string.
-/

set_option autoImplicit false

namespace Maya

/-- The `load_avg` dict built by `_monitor_cpu`: keys `1min`, `5min`, `15min`. -/
structure LoadAvg where
  one_min : ℚ
  five_min : ℚ
  fifteen_min : ℚ
  deriving DecidableEq

/-- Per-interface stats dict built by `_monitor_network`.  The cumulative
counters are always present; the `bytes_sent_ps` / `bytes_recv_ps` keys are
present only when the interface had a previous sample (they are added
together by the monitor, but the embedding keeps them independent so that
`patterns.py`'s separate key accesses can be modelled faithfully). -/
structure IfaceStats where
  bytes_sent : ℤ
  bytes_recv : ℤ
  packets_sent : ℤ
  packets_recv : ℤ
  err_in : ℤ
  err_out : ℤ
  drop_in : ℤ
  drop_out : ℤ
  bytes_sent_ps : Option ℚ
  bytes_recv_ps : Option ℚ
  deriving DecidableEq

/-- `SystemMetrics` dataclass from `monitor.py` (field order preserved). -/
structure SystemMetrics where
  timestamp : ℚ
  cpu_percent : ℚ
  memory_percent : ℚ
  disk_usage : List (String × ℚ)
  network_io : List (String × IfaceStats)
  processes : ℤ
  load_avg : LoadAvg
  boot_time : ℚ
  users : ℤ
  deriving DecidableEq

/-- JSON-like values: the payload type of the untyped `Dict[str, Any]`
fields (`Pattern.data`, `Pattern.metadata`, serialized metrics). -/
inductive JVal where
  | null : JVal
  | bool : Bool → JVal
  | int : ℤ → JVal
  | num : ℚ → JVal
  | str : String → JVal
  | obj : List (String × JVal) → JVal

/-- A Python dict with string keys, in insertion order. -/
abbrev JDict := List (String × JVal)

/-- First value bound to key `k`, like `d.get(k)`. -/
def jlookup : JDict → String → Option JVal
  | [], _ => none
  | kv :: rest, k => if kv.1 == k then some kv.2 else jlookup rest k

/-- `{**d1, **d2}` / `d1.update(d2)`: existing keys keep their position and
take the overriding value; new keys are appended in `d2` order. -/
def dictUpdate (d1 d2 : JDict) : JDict :=
  (d1.map (fun kv =>
    match jlookup d2 kv.1 with
    | some v => (kv.1, v)
    | none => kv))
  ++ d2.filter (fun kv => (jlookup d1 kv.1).isNone)

/-- Lexicographic order on strings as lists of character codes, used to
model `json.dumps(..., sort_keys=True)`. -/
def strLe (a b : String) : Bool :=
  go a.toList b.toList
where
  go : List Char → List Char → Bool
    | [], _ => true
    | _ :: _, [] => false
    | c :: cs, d :: ds =>
      if c.toNat < d.toNat then true
      else if d.toNat < c.toNat then false
      else go cs ds

/-- Insertion sort of dict entries by key (stable). -/
def sortEntries : List (String × JVal) → List (String × JVal)
  | [] => []
  | kv :: rest => insertEntry kv (sortEntries rest)
where
  insertEntry (kv : String × JVal) : List (String × JVal) → List (String × JVal)
    | [] => [kv]
    | kv' :: rest => if strLe kv.1 kv'.1 then kv :: kv' :: rest
                     else kv' :: insertEntry kv rest

mutual
/-- Recursively sort every object's keys (the effect of `sort_keys=True`). -/
def jsortKeys : JVal → JVal
  | .obj kvs => .obj (sortEntries (jsortList kvs))
  | v => v

def jsortList : List (String × JVal) → List (String × JVal)
  | [] => []
  | (k, v) :: rest => (k, jsortKeys v) :: jsortList rest
end

/-- Deterministic rendering of a rational (stands in for Python float repr;
only determinism matters for the id claims). -/
def qRender (q : ℚ) : String :=
  toString q.num ++ "/" ++ toString q.den

mutual
/-- Deterministic serialization of a (key-sorted) value, modelling
`json.dumps`. -/
def jRender : JVal → String
  | .null => "null"
  | .bool b => if b then "true" else "false"
  | .int n => toString n
  | .num q => qRender q
  | .str s => "\"" ++ s ++ "\""
  | .obj kvs => "\x7b" ++ jRenderList kvs ++ "\x7d"

def jRenderList : List (String × JVal) → String
  | [] => ""
  | [(k, v)] => "\"" ++ k ++ "\":" ++ jRender v
  | (k, v) :: kv :: rest =>
    "\"" ++ k ++ "\":" ++ jRender v ++ "," ++ jRenderList (kv :: rest)
end

/-- `json.dumps(data, sort_keys=True)` for a dict. -/
def jdumps (d : JDict) : String :=
  jRender (jsortKeys (.obj d))

/-- Model of `hashlib.md5(s.encode()).hexdigest()[:8]`: a deterministic
8-hex-character digest of the input string.  The concrete mixing function
differs from MD5; every claim in this development depends only on the
digest being a pure function of `s`. -/
def digestHex8 (s : String) : String :=
  let h := s.data.foldl (fun h c => (h * 131 + c.toNat + 1) % 4294967296) 5381
  hexOfNat 8 h
where
  hexDigit (n : ℕ) : Char :=
    if n < 10 then Char.ofNat (48 + n) else Char.ofNat (87 + n)
  hexOfNat : ℕ → ℕ → String
    | 0, _ => ""
    | k + 1, n => hexOfNat k (n / 16) ++ String.mk [hexDigit (n % 16)]

/-- `PatternLearner._generate_pattern_id`:
`f"{pattern_type}_{md5(f"{pattern_type}:{json.dumps(data, sort_keys=True)}").hexdigest()[:8]}"`. -/
def generate_pattern_id (pattern_type : String) (data : JDict) : String :=
  let hash_input := pattern_type ++ ":" ++ jdumps data
  pattern_type ++ "_" ++ digestHex8 hash_input

/-- The `Pattern` dataclass from `patterns.py`. -/
structure Pattern where
  id : String
  pattern_type : String
  data : JDict
  created_at : ℚ
  updated_at : ℚ
  confidence : ℚ
  metadata : JDict

/-- `self.patterns : Dict[str, Pattern]` — insertion-ordered map. -/
abbrev PatternMap := List (String × Pattern)

/-- `self.patterns.get(pattern_id)`: first value bound to the key. -/
def lookupPattern : PatternMap → String → Option Pattern
  | [], _ => none
  | kv :: rest, k => if kv.1 == k then some kv.2 else lookupPattern rest k

/-- `del self.patterns[k]`: remove the (unique) entry with key `k`;
removes the first occurrence if keys were duplicated. -/
def eraseKey : PatternMap → String → PatternMap
  | [], _ => []
  | kv :: rest, k => if kv.1 == k then rest else kv :: eraseKey rest k

/-- `min(values, key=lambda p: p.updated_at)`: first value attaining the
minimal `updated_at` in iteration order (Python's `min` keeps the earliest
of equal keys). -/
def firstMinByUpdated : List Pattern → Option Pattern
  | [] => none
  | p :: rest =>
    some (rest.foldl (fun best q => if q.updated_at < best.updated_at then q else best) p)

/-- `PatternLearner._add_pattern` (the body under the lock): merge into an
existing entry with the same id, or insert and enforce the
`learning.max_patterns` capacity by deleting the least-recently-updated
pattern. -/
def add_pattern (max_patterns : ℕ) (ps : PatternMap) (p : Pattern) : PatternMap :=
  match lookupPattern ps p.id with
  | some existing =>
    let upd : Pattern :=
      { existing with
        updated_at := p.updated_at
        confidence := min 1 (existing.confidence + 1/10)
        data := dictUpdate existing.data p.data }
    ps.map (fun kv => if kv.1 == p.id then (kv.1, upd) else kv)
  | none =>
    let ps' := ps ++ [(p.id, p)]
    if ps'.length > max_patterns then
      match firstMinByUpdated (ps'.map (fun kv => kv.2)) with
      | some oldest => eraseKey ps' oldest.id
      | none => ps'
    else ps'

/-- `asdict` of the `load_avg` dict. -/
def loadAvgJ (la : LoadAvg) : JVal :=
  .obj [("1min", .num la.one_min), ("5min", .num la.five_min),
        ("15min", .num la.fifteen_min)]

/-- `asdict` of one interface's stats dict (the rate keys appear only when
the monitor computed them). -/
def ifaceStatsJ (s : IfaceStats) : JVal :=
  .obj ([("bytes_sent", .int s.bytes_sent), ("bytes_recv", .int s.bytes_recv),
         ("packets_sent", .int s.packets_sent), ("packets_recv", .int s.packets_recv),
         ("err_in", .int s.err_in), ("err_out", .int s.err_out),
         ("drop_in", .int s.drop_in), ("drop_out", .int s.drop_out)]
        ++ (match s.bytes_sent_ps with
            | some q => [("bytes_sent_ps", .num q)]
            | none => [])
        ++ (match s.bytes_recv_ps with
            | some q => [("bytes_recv_ps", .num q)]
            | none => []))

/-- `asdict(metrics)`: the metrics dict handed to the detectors
(dataclass field order). -/
def metricsJ (m : SystemMetrics) : JDict :=
  [("timestamp", .num m.timestamp),
   ("cpu_percent", .num m.cpu_percent),
   ("memory_percent", .num m.memory_percent),
   ("disk_usage", .obj (m.disk_usage.map (fun kv => (kv.1, .num kv.2)))),
   ("network_io", .obj (m.network_io.map (fun kv => (kv.1, ifaceStatsJ kv.2)))),
   ("processes", .int m.processes),
   ("load_avg", loadAvgJ m.load_avg),
   ("boot_time", .num m.boot_time),
   ("users", .int m.users)]

/-- `PatternLearner._detect_cpu_patterns`: the candidate built when the
thresholds trip (`None` when the rule does not fire). -/
def detect_cpu_pattern (m : SystemMetrics) : Option Pattern :=
  if m.cpu_percent > 80 ∧ m.load_avg.one_min > 4 then
    some
      { id := generate_pattern_id "high_cpu" (metricsJ m)
        pattern_type := "high_cpu"
        data := [("cpu_percent", .num m.cpu_percent),
                 ("load_avg", loadAvgJ m.load_avg),
                 ("processes", .int m.processes)]
        created_at := m.timestamp
        updated_at := m.timestamp
        confidence := min 1 ((m.cpu_percent - 70) / 30)
        metadata := [("detection_method", .str "threshold"),
                     ("threshold", .num 80)] }
  else none

/-- `PatternLearner._detect_memory_patterns`. -/
def detect_memory_pattern (m : SystemMetrics) : Option Pattern :=
  if m.memory_percent > 85 then
    some
      { id := generate_pattern_id "high_memory" (metricsJ m)
        pattern_type := "high_memory"
        data := [("memory_percent", .num m.memory_percent),
                 ("timestamp", .num m.timestamp)]
        created_at := m.timestamp
        updated_at := m.timestamp
        confidence := min 1 ((m.memory_percent - 75) / 25)
        metadata := [("detection_method", .str "threshold"),
                     ("threshold", .num 85)] }
  else none

/-- Errors raised by the modelled Python code and caught by
`except Exception` handlers. -/
inductive PyErr where
  | typeError
  | keyError
  deriving DecidableEq

/-- The network candidate for interface `iface`. -/
def mkNetworkPattern (m : SystemMetrics) (iface : String) (sent recv : ℚ) : Pattern :=
  { id := generate_pattern_id "high_network"
            (dictUpdate (metricsJ m) [("interface", .str iface)])
    pattern_type := "high_network"
    data := [("interface", .str iface),
             ("bytes_sent_ps", .num sent),
             ("bytes_recv_ps", .num recv),
             ("timestamp", .num m.timestamp)]
    created_at := m.timestamp
    updated_at := m.timestamp
    confidence := 4/5
    metadata := [("detection_method", .str "threshold"),
                 ("threshold", .int 1000000)] }

/-- Outcome of one loop iteration of `_detect_network_patterns`. -/
inductive NetStep where
  | skip
  | emit (p : Pattern)
  | err (e : PyErr)

/-- One iteration of the `_detect_network_patterns` loop.  `lo` and
rate-less interfaces are skipped; a missing `bytes_recv_ps` key raises a
`KeyError` (either in the short-circuit condition or while building the
candidate's `data`). -/
def networkStep (m : SystemMetrics) (iface : String) (stats : IfaceStats) : NetStep :=
  if iface == "lo" then .skip
  else
    match stats.bytes_sent_ps with
    | none => .skip
    | some sent =>
      if sent > 1000000 then
        match stats.bytes_recv_ps with
        | none => .err .keyError
        | some recv => .emit (mkNetworkPattern m iface sent recv)
      else
        match stats.bytes_recv_ps with
        | none => .err .keyError
        | some recv =>
          if recv > 1000000 then .emit (mkNetworkPattern m iface sent recv)
          else .skip

/-- `PatternLearner._detect_network_patterns`: the candidates emitted, in
interface order, up to the first raised error (candidates added before an
exception survive, mirroring the mutation-then-raise behaviour). -/
def detect_network_patterns (m : SystemMetrics) : List Pattern × Option PyErr :=
  go m.network_io
where
  go : List (String × IfaceStats) → List Pattern × Option PyErr
    | [] => ([], none)
    | (iface, stats) :: rest =>
      match networkStep m iface stats with
      | .skip => go rest
      | .emit p =>
        let r := go rest
        (p :: r.1, r.2)
      | .err e => ([], some e)

/-- `LearningConfig` from `config.py` (fields used by the pattern store). -/
structure LearningConfig where
  enabled : Bool
  interval : ℚ
  batch_size : ℕ
  max_patterns : ℕ
  deriving DecidableEq

/-- The slice of `Config` consumed by the pattern learner.  The
`monitoring`, `storage` and `git` sections only configure collaborators
that are out of the modelled core (file paths, git commits). -/
structure Config where
  learning : LearningConfig
  deriving DecidableEq

/-- Defaults from `config.py`. -/
def defaultConfig : Config :=
  { learning := { enabled := true, interval := 60, batch_size := 100, max_patterns := 1000 } }

/-- Result of the `try:` block of `PatternLearner.process`: the pattern
population as mutated so far, whether `_save_patterns` ran, and the
error that escaped the block (if any; a raised error always skips the
save step). -/
structure TryOut where
  patterns : PatternMap
  didSave : Bool
  err : Option PyErr

/-- The three `_detect_*` calls of one `process` iteration: each detector
adds its candidates to the population in rule order (CPU, memory,
network); network candidates emitted before a raised error are kept. -/
def run_detectors (max_patterns : ℕ) (ps : PatternMap) (m : SystemMetrics) : PatternMap :=
  let ps1 := match detect_cpu_pattern m with
    | some p => add_pattern max_patterns ps p
    | none => ps
  let ps2 := match detect_memory_pattern m with
    | some p => add_pattern max_patterns ps1 p
    | none => ps1
  (detect_network_patterns m).1.foldl (add_pattern max_patterns) ps2

/-- The `try:` body of `PatternLearner.process`: `asdict(metrics)` (a
`TypeError` on `None`), the three detectors each adding their candidates,
then `_save_patterns` when `len(self.patterns) % 10 == 0`. -/
def process_try (max_patterns : ℕ) (ps : PatternMap) (m? : Option SystemMetrics) : TryOut :=
  match m? with
  | none => ⟨ps, false, some .typeError⟩
  | some m =>
    let ps3 := run_detectors max_patterns ps m
    match (detect_network_patterns m).2 with
    | some e => ⟨ps3, false, some e⟩
    | none =>
      if ps3.length % 10 == 0 then ⟨ps3, true, none⟩ else ⟨ps3, false, none⟩

/-- `PatternLearner.process`: returns immediately when learning is
disabled; otherwise runs the `try:` body and swallows (logs) any raised
error.  The boolean records whether `_save_patterns` ran during the call. -/
def process (cfg : Config) (ps : PatternMap) (m? : Option SystemMetrics) : PatternMap × Bool :=
  if cfg.learning.enabled then
    let r := process_try cfg.learning.max_patterns ps m?
    (r.patterns, r.didSave)
  else (ps, false)

/-- A sequence of `process` calls: final population and the per-call
record of whether `_save_patterns` ran. -/
def runProcess (cfg : Config) (ps : PatternMap) : List (Option SystemMetrics) → PatternMap × List Bool
  | [] => (ps, [])
  | m? :: rest =>
    let r := process cfg ps m?
    let rec' := runProcess cfg r.1 rest
    (rec'.1, r.2 :: rec'.2)

/-- `PatternLearner.cleanup`: unconditionally calls `_save_patterns`
(one final flush).  Returns whether a save ran. -/
def cleanup_runs_save : Bool := true

/-- `self.patterns[pattern.id] = pattern` during `_load_patterns`:
replace in place if the key exists, else append. -/
def dictInsertPattern (ps : PatternMap) (p : Pattern) : PatternMap :=
  if (lookupPattern ps p.id).isSome then
    ps.map (fun kv => if kv.1 == p.id then (kv.1, p) else kv)
  else ps ++ [(p.id, p)]

/-- One element of the `patterns` list of the on-disk document, as seen by
`Pattern(**pattern_data)`: either a well-formed pattern or a value on
which the constructor raises (missing/unexpected fields, non-dict). -/
inductive EntryDoc where
  | good (p : Pattern)
  | bad

/-- The parsed on-disk pattern file: `json.load` either raises
(`malformed`) or yields a document whose `patterns` key (absent ⇒ `[]`)
holds a list of entries. -/
inductive FileDoc where
  | malformed
  | parsed (entries : Option (List EntryDoc))

/-- The entry loop of `_load_patterns`: insert each well-formed entry;
the first bad entry raises, the exception is caught, and the entries
inserted so far remain. -/
def loadEntries : PatternMap → List EntryDoc → PatternMap
  | ps, [] => ps
  | ps, .good p :: rest => loadEntries (dictInsertPattern ps p) rest
  | ps, .bad :: _ => ps

/-- `PatternLearner._load_patterns`: missing file ⇒ return; any raised
error (malformed JSON, bad entry) is caught and logged; entries loaded
before an error remain. -/
def load_patterns (file : Option FileDoc) (ps : PatternMap) : PatternMap :=
  match file with
  | none => ps
  | some .malformed => ps
  | some (.parsed entries) => loadEntries ps (entries.getD [])

/-- `SystemMonitor`'s snapshot state, with Python reference semantics made
explicit: `heap` holds the allocated `SystemMetrics` objects (a reference
is an index), `cache` is `self._metrics_cache` (`None` or a reference). -/
structure MonitorState where
  heap : List SystemMetrics
  cache : Option ℕ
  deriving DecidableEq

/-- `SystemMonitor.get_metrics`: returns `self._metrics_cache` itself —
the reference, not a copy of the object. -/
def get_metrics (st : MonitorState) : Option ℕ :=
  st.cache

/-- Reading the object a reference points to. -/
def derefMetrics (st : MonitorState) (r : ℕ) : Option SystemMetrics :=
  st.heap.get? r

/-- In-place update of the object at index `r`. -/
def heapModify (f : SystemMetrics → SystemMetrics) : ℕ → List SystemMetrics → List SystemMetrics
  | _, [] => []
  | 0, o :: os => f o :: os
  | n + 1, o :: os => o :: heapModify f n os

/-- One merge step of `SystemMonitor._monitor_cpu` (under the lock): on
first use allocate the snapshot object; afterwards mutate the existing
object's `cpu_percent` and `load_avg` fields in place. -/
def monitor_cpu_merge (st : MonitorState) (now cpu : ℚ) (la : LoadAvg)
    (boot : ℚ) (users : ℤ) : MonitorState :=
  match st.cache with
  | none =>
    let obj : SystemMetrics :=
      { timestamp := now, cpu_percent := cpu, memory_percent := 0,
        disk_usage := [], network_io := [], processes := 0,
        load_avg := la, boot_time := boot, users := users }
    { heap := st.heap ++ [obj], cache := some st.heap.length }
  | some r =>
    { st with heap := heapModify (fun o => { o with cpu_percent := cpu, load_avg := la }) r st.heap }

/-! ## Helper lemmas about the pattern map -/

theorem foldlMin_mem (l : List Pattern) (p : Pattern) :
    l.foldl (fun best q => if q.updated_at < best.updated_at then q else best) p ∈ p :: l := by
  induction l generalizing p with
  | nil => simp
  | cons a l ih =>
    simp only [List.foldl_cons]
    by_cases hc : a.updated_at < p.updated_at
    · rw [if_pos hc]
      exact List.mem_cons_of_mem p (ih a)
    · rw [if_neg hc]
      rcases List.mem_cons.mp (ih p) with h' | h'
      · rw [h']
        exact List.mem_cons_self p (a :: l)
      · exact List.mem_cons_of_mem p (List.mem_cons_of_mem a h')

theorem foldlMin_le (l : List Pattern) (p : Pattern) :
    (l.foldl (fun best q => if q.updated_at < best.updated_at then q else best) p).updated_at
        ≤ p.updated_at ∧
    ∀ r ∈ l,
      (l.foldl (fun best q => if q.updated_at < best.updated_at then q else best) p).updated_at
        ≤ r.updated_at := by
  induction l generalizing p with
  | nil => exact ⟨le_refl _, by simp⟩
  | cons a l ih =>
    simp only [List.foldl_cons]
    by_cases hc : a.updated_at < p.updated_at
    · rw [if_pos hc]
      refine ⟨le_trans (ih a).1 (le_of_lt hc), ?_⟩
      intro r hr
      rcases List.mem_cons.mp hr with rfl | hr
      · exact (ih _).1
      · exact (ih _).2 r hr
    · rw [if_neg hc]
      refine ⟨(ih p).1, ?_⟩
      intro r hr
      rcases List.mem_cons.mp hr with rfl | hr
      · exact le_trans (ih p).1 (le_of_not_lt hc)
      · exact (ih p).2 r hr

theorem firstMinByUpdated_spec (l : List Pattern) (hne : l ≠ []) :
    ∃ q, firstMinByUpdated l = some q ∧ q ∈ l ∧ ∀ r ∈ l, q.updated_at ≤ r.updated_at := by
  match l, hne with
  | p :: rest, _ =>
    refine ⟨_, rfl, foldlMin_mem rest p, ?_⟩
    intro r hr
    rcases List.mem_cons.mp hr with rfl | hr
    · exact (foldlMin_le rest r).1
    · exact (foldlMin_le rest p).2 r hr

theorem eraseKey_sublist (ps : PatternMap) (k : String) : (eraseKey ps k).Sublist ps := by
  induction ps with
  | nil => simp [eraseKey]
  | cons kv rest ih =>
    by_cases h : kv.1 = k
    · have hb : (kv.1 == k) = true := by simpa using h
      simp only [eraseKey, hb, if_true]
      exact List.sublist_cons_self kv rest
    · have hb : (kv.1 == k) = false := beq_eq_false_iff_ne.mpr h
      simp only [eraseKey, hb, Bool.false_eq_true, if_false]
      exact List.Sublist.cons₂ kv ih

theorem eraseKey_length (ps : PatternMap) (k : String) (h : k ∈ ps.map Prod.fst) :
    (eraseKey ps k).length + 1 = ps.length := by
  induction ps with
  | nil => simp at h
  | cons kv rest ih =>
    by_cases hk : kv.1 = k
    · simp [eraseKey, hk]
    · have hmem : k ∈ rest.map Prod.fst := by
        rcases List.mem_map.mp h with ⟨kv', hkv', he⟩
        rcases List.mem_cons.mp hkv' with rfl | hkv'
        · exact absurd he hk
        · exact List.mem_map.mpr ⟨kv', hkv', he⟩
      have hb : (kv.1 == k) = false := beq_eq_false_iff_ne.mpr hk
      simp only [eraseKey, hb, Bool.false_eq_true, if_false, List.length_cons]
      rw [ih hmem]

theorem lookupPattern_eq_none (ps : PatternMap) (k : String) :
    lookupPattern ps k = none ↔ k ∉ ps.map Prod.fst := by
  induction ps with
  | nil => simp [lookupPattern]
  | cons kv rest ih =>
    by_cases h : kv.1 = k
    · simp [lookupPattern, h]
    · have hb : (kv.1 == k) = false := beq_eq_false_iff_ne.mpr h
      simp only [lookupPattern, hb, Bool.false_eq_true, if_false, List.map_cons,
        List.mem_cons, ih]
      constructor
      · intro hn hor
        rcases hor with he | hm
        · exact h he.symm
        · exact hn hm
      · intro hn hm
        exact hn (Or.inr hm)

theorem lookupPattern_some_mem (ps : PatternMap) (k : String) (v : Pattern)
    (h : lookupPattern ps k = some v) : ∃ kv ∈ ps, kv.1 = k ∧ kv.2 = v := by
  induction ps with
  | nil => simp [lookupPattern] at h
  | cons kv rest ih =>
    by_cases hk : kv.1 = k
    · rw [lookupPattern, if_pos (by simpa using hk)] at h
      exact ⟨kv, List.mem_cons_self kv rest, hk, by simpa using h⟩
    · rw [lookupPattern, if_neg (by simpa using hk)] at h
      rcases ih h with ⟨kv', hkv', hk', hv'⟩
      exact ⟨kv', List.mem_cons_of_mem kv hkv', hk', hv'⟩

theorem map_fst_update (ps : PatternMap) (k : String) (upd : Pattern) :
    (ps.map (fun kv => if kv.1 == k then (kv.1, upd) else kv)).map Prod.fst
      = ps.map Prod.fst := by
  induction ps with
  | nil => rfl
  | cons kv rest ih =>
    simp only [List.map_cons, ih]
    by_cases h : kv.1 = k
    · rw [if_pos (by simpa using h)]
    · rw [if_neg (by simpa using h)]

theorem lookup_map_update (ps : PatternMap) (k : String) (upd : Pattern) :
    lookupPattern (ps.map (fun kv => if kv.1 == k then (kv.1, upd) else kv)) k
      = (lookupPattern ps k).map (fun _ => upd) := by
  induction ps with
  | nil => rfl
  | cons kv rest ih =>
    by_cases h : kv.1 = k
    · rw [List.map_cons, if_pos (by simpa using h)]
      rw [lookupPattern, if_pos (by simpa using h)]
      rw [lookupPattern, if_pos (by simpa using h)]
      rfl
    · rw [List.map_cons, if_neg (by simpa using h)]
      rw [lookupPattern, if_neg (by simpa using h)]
      rw [lookupPattern, if_neg (by simpa using h)]
      exact ih

/-- Invariant maintained by `_add_pattern` starting from the empty map:
every key equals its pattern's id, keys are distinct, and the population
is within the configured capacity. -/
def GoodMap (max_patterns : ℕ) (ps : PatternMap) : Prop :=
  (∀ kv ∈ ps, kv.1 = kv.2.id) ∧ (ps.map Prod.fst).Nodup ∧ ps.length ≤ max_patterns

theorem add_pattern_good (max_patterns : ℕ) (ps : PatternMap) (p : Pattern)
    (h : GoodMap max_patterns ps) : GoodMap max_patterns (add_pattern max_patterns ps p) := by
  obtain ⟨hid, hnd, hlen⟩ := h
  cases hl : lookupPattern ps p.id with
  | some existing =>
    simp only [add_pattern, hl]
    refine ⟨?_, ?_, ?_⟩
    · intro kv hkv
      rcases List.mem_map.mp hkv with ⟨kv₀, hkv₀, rfl⟩
      by_cases he : kv₀.1 = p.id
      · rw [if_pos (by simpa using he)]
        rcases lookupPattern_some_mem ps p.id existing hl with ⟨kv₁, hkv₁, hk₁, hv₁⟩
        have hex : existing.id = p.id := by
          rw [← hv₁, ← (hid kv₁ hkv₁)]
          exact hk₁
        exact he.trans hex.symm
      · rw [if_neg (by simpa using he)]
        exact hid kv₀ hkv₀
    · rw [map_fst_update]
      exact hnd
    · rw [List.length_map]
      exact hlen
  | none =>
    simp only [add_pattern, hl]
    have hnotmem : p.id ∉ ps.map Prod.fst := (lookupPattern_eq_none ps p.id).mp hl
    have hid' : ∀ kv ∈ ps ++ [(p.id, p)], kv.1 = kv.2.id := by
      intro kv hkv
      rcases List.mem_append.mp hkv with hkv | hkv
      · exact hid kv hkv
      · have : kv = (p.id, p) := by simpa using hkv
        rw [this]
    have hnd' : ((ps ++ [(p.id, p)]).map Prod.fst).Nodup := by
      rw [List.map_append]
      refine List.Nodup.append hnd (by simp) ?_
      intro a ha hb
      have : a = p.id := by simpa using hb
      exact hnotmem (this ▸ ha)
    by_cases hgt : (ps ++ [(p.id, p)]).length > max_patterns
    · rw [if_pos hgt]
      have hne : (ps ++ [(p.id, p)]).map (fun kv => kv.2) ≠ [] := by simp
      obtain ⟨q, hq, hqmem, _⟩ := firstMinByUpdated_spec _ hne
      rw [hq]
      have hsub := eraseKey_sublist (ps ++ [(p.id, p)]) q.id
      refine ⟨?_, ?_, ?_⟩
      · intro kv hkv
        exact hid' kv (hsub.subset hkv)
      · exact List.Nodup.sublist (hsub.map Prod.fst) hnd'
      · show (eraseKey (ps ++ [(p.id, p)]) q.id).length ≤ max_patterns
        rcases List.mem_map.mp hqmem with ⟨kv₁, hkv₁, hv₁⟩
        have hkmem : q.id ∈ (ps ++ [(p.id, p)]).map Prod.fst := by
          refine List.mem_map.mpr ⟨kv₁, hkv₁, ?_⟩
          rw [hid' kv₁ hkv₁, hv₁]
        have hlen₁ := eraseKey_length _ _ hkmem
        have hlen₂ : (ps ++ [(p.id, p)]).length = ps.length + 1 := by simp
        omega
    · rw [if_neg hgt]
      exact ⟨hid', hnd', by omega⟩

theorem foldl_add_pattern_good (max_patterns : ℕ) (cands : List Pattern) (ps : PatternMap)
    (h : GoodMap max_patterns ps) :
    GoodMap max_patterns (cands.foldl (add_pattern max_patterns) ps) := by
  induction cands generalizing ps with
  | nil => exact h
  | cons c cs ih => exact ih _ (add_pattern_good _ _ _ h)

theorem keysId_append (ps : PatternMap) (p : Pattern)
    (hid : ∀ kv ∈ ps, kv.1 = kv.2.id) :
    ∀ kv ∈ ps ++ [(p.id, p)], kv.1 = kv.2.id := by
  intro kv hkv
  rcases List.mem_append.mp hkv with h | h
  · exact hid kv h
  · have : kv = (p.id, p) := by simpa using h
    rw [this]

theorem add_pattern_conf_le (max_patterns : ℕ) (ps : PatternMap) (p : Pattern)
    (hps : ∀ kv ∈ ps, kv.2.confidence ≤ 1) (hp : p.confidence ≤ 1) :
    ∀ kv ∈ add_pattern max_patterns ps p, kv.2.confidence ≤ 1 := by
  cases hl : lookupPattern ps p.id with
  | some existing =>
    simp only [add_pattern, hl]
    intro kv hkv
    rcases List.mem_map.mp hkv with ⟨kv₀, hkv₀, rfl⟩
    by_cases he : kv₀.1 = p.id
    · rw [if_pos (by simpa using he)]
      exact min_le_left _ _
    · rw [if_neg (by simpa using he)]
      exact hps kv₀ hkv₀
  | none =>
    simp only [add_pattern, hl]
    have hall : ∀ kv ∈ ps ++ [(p.id, p)], kv.2.confidence ≤ 1 := by
      intro kv hkv
      rcases List.mem_append.mp hkv with h | h
      · exact hps kv h
      · have : kv = (p.id, p) := by simpa using h
        rw [this]
        exact hp
    by_cases hgt : (ps ++ [(p.id, p)]).length > max_patterns
    · rw [if_pos hgt]
      cases hmin : firstMinByUpdated ((ps ++ [(p.id, p)]).map fun kv => kv.2) with
      | some oldest =>
        intro kv hkv
        exact hall kv ((eraseKey_sublist _ _).subset hkv)
      | none =>
        exact hall
    · rw [if_neg hgt]
      exact hall

theorem foldl_add_conf_le (max_patterns : ℕ) (cands : List Pattern) (ps : PatternMap)
    (hps : ∀ kv ∈ ps, kv.2.confidence ≤ 1) (hc : ∀ c ∈ cands, c.confidence ≤ 1) :
    ∀ kv ∈ cands.foldl (add_pattern max_patterns) ps, kv.2.confidence ≤ 1 := by
  induction cands generalizing ps with
  | nil => exact hps
  | cons c cs ih =>
    exact ih _ (add_pattern_conf_le _ _ _ hps (hc c (List.mem_cons_self c cs)))
      (fun c' hc' => hc c' (List.mem_cons_of_mem c hc'))

/-! ## Claim theorems -/

/-- C4: after any sequence of `_add_pattern` calls starting from an empty
pattern population, the number of stored patterns is at most the
configured `learning.max_patterns` maximum. -/
theorem capacity_invariant (cfg : Config) (cands : List Pattern) :
    (cands.foldl (add_pattern cfg.learning.max_patterns) []).length
      ≤ cfg.learning.max_patterns :=
  (foldl_add_pattern_good cfg.learning.max_patterns cands []
    ⟨by simp, by simp, by simp⟩).2.2

/-- Concrete pattern used in witnesses. -/
def pW : Pattern :=
  { id := "high_cpu_00000000", pattern_type := "high_cpu", data := [],
    created_at := 0, updated_at := 0, confidence := 1/2, metadata := [] }

theorem lookupPattern_single (a : String) (q : Pattern) (k : String) (h : a ≠ k) :
    lookupPattern [(a, q)] k = none := by
  rw [lookupPattern, if_neg (by simpa using h)]
  rfl

theorem add_pattern_inserts (max_patterns : ℕ) (ps : PatternMap) (p : Pattern)
    (hnew : lookupPattern ps p.id = none)
    (hlen : ps.length + 1 ≤ max_patterns) :
    add_pattern max_patterns ps p = ps ++ [(p.id, p)] := by
  simp only [add_pattern, hnew]
  rw [if_neg]
  simp only [List.length_append, List.length_cons, List.length_nil, gt_iff_lt, not_lt]
  omega

/-- A snapshot whose CPU condition trips the `high_cpu` rule. -/
def mRedetect1 : SystemMetrics :=
  { timestamp := 1000, cpu_percent := 85, memory_percent := 50,
    disk_usage := [], network_io := [], processes := 100,
    load_avg := { one_min := 5, five_min := 3, fifteen_min := 2 },
    boot_time := 0, users := 1 }

/-- The same CPU condition re-detected five seconds later: every field
equal except the `timestamp` refreshed by the system collector. -/
def mRedetect2 : SystemMetrics := { mRedetect1 with timestamp := 1005 }

set_option maxRecDepth 100000 in
/-- C1 counterexample: re-detecting the same condition five seconds later
yields a candidate with the identical `pattern_type` and identical `data`
mapping but a *different* id — `_generate_pattern_id` hashes the full
metrics dict, whose `timestamp` changed — so adding the second candidate
inserts a second entry instead of updating the first. -/
theorem pattern_id_counterexample :
    ∃ p1 p2,
      detect_cpu_pattern mRedetect1 = some p1 ∧
      detect_cpu_pattern mRedetect2 = some p2 ∧
      p1.pattern_type = p2.pattern_type ∧
      p1.data = p2.data ∧
      p1.id ≠ p2.id ∧
      (add_pattern 1000 [(p1.id, p1)] p2).map Prod.fst = [p1.id, p2.id] := by
  have hne : generate_pattern_id "high_cpu" (metricsJ mRedetect1)
      ≠ generate_pattern_id "high_cpu" (metricsJ mRedetect2) := by decide
  refine ⟨_, _, rfl, rfl, rfl, rfl, hne, ?_⟩
  rw [add_pattern_inserts 1000 _ _ (lookupPattern_single _ _ _ hne) (by norm_num)]
  rfl

/-- C1 (amended): the pattern id is a pure function of the *full metrics
dict* handed to `_generate_pattern_id`, not of the candidate's
`(pattern_type, data)`: a fired CPU candidate's id is computed from the
entire serialized metrics, timestamp included; adding a candidate whose id
is already stored updates the existing entry in place (same keys, same
size), while a candidate whose id is absent — as happens whenever any
metrics field such as the timestamp changed — is inserted as a new entry. -/
theorem pattern_id_of_full_metrics :
    (∀ (m : SystemMetrics) (p : Pattern), detect_cpu_pattern m = some p →
       p.id = generate_pattern_id "high_cpu" (metricsJ m)) ∧
    (∀ (max_patterns : ℕ) (ps : PatternMap) (p : Pattern),
       (lookupPattern ps p.id).isSome →
       (add_pattern max_patterns ps p).map Prod.fst = ps.map Prod.fst ∧
       (add_pattern max_patterns ps p).length = ps.length) ∧
    (∀ (max_patterns : ℕ) (ps : PatternMap) (p : Pattern),
       lookupPattern ps p.id = none → ps.length + 1 ≤ max_patterns →
       add_pattern max_patterns ps p = ps ++ [(p.id, p)]) := by
  refine ⟨?_, ?_, ?_⟩
  · intro m p hp
    rw [detect_cpu_pattern] at hp
    split at hp
    case isTrue h =>
      injection hp with hp
      rw [← hp]
    case isFalse h =>
      simp at hp
  · intro maxP ps p hs
    rcases Option.isSome_iff_exists.mp hs with ⟨existing, hl⟩
    simp only [add_pattern, hl]
    exact ⟨map_fst_update ps p.id _, List.length_map _ _⟩
  · intro maxP ps p hnew hlen
    exact add_pattern_inserts maxP ps p hnew hlen

/-- Witness for C1 (amended) at concrete inputs: the fired candidate's id
is the digest of the full metrics dict; re-adding a stored id keeps keys
and size; adding a fresh id to an empty store appends it. -/
theorem pattern_id_of_full_metrics_witness :
    (∃ p, detect_cpu_pattern mRedetect1 = some p ∧
       p.id = generate_pattern_id "high_cpu" (metricsJ mRedetect1)) ∧
    (add_pattern 10 [(pW.id, pW)] pW).map Prod.fst = [pW.id] ∧
    (add_pattern 10 [(pW.id, pW)] pW).length = 1 ∧
    add_pattern 10 [] pW = [(pW.id, pW)] := by
  refine ⟨?_, ?_, ?_, ?_⟩
  · exact ⟨_, rfl, pattern_id_of_full_metrics.1 mRedetect1 _ rfl⟩
  · exact (pattern_id_of_full_metrics.2.1 10 [(pW.id, pW)] pW (by rfl)).1
  · exact (pattern_id_of_full_metrics.2.1 10 [(pW.id, pW)] pW (by rfl)).2
  · exact pattern_id_of_full_metrics.2.2 10 [] pW rfl (by norm_num)

/-- C5: inserting a new (distinct-id) pattern into a population already at
the configured maximum evicts exactly one entry — the (first) entry with
the smallest `updated_at` among all stored patterns, the freshly inserted
one included — leaving the population at the maximum. -/
theorem eviction_least_recently_updated (max_patterns : ℕ) (ps : PatternMap) (p : Pattern)
    (hids : ∀ kv ∈ ps, kv.1 = kv.2.id)
    (hnew : lookupPattern ps p.id = none)
    (hfull : ps.length = max_patterns) :
    ∃ q, firstMinByUpdated ((ps ++ [(p.id, p)]).map (fun kv => kv.2)) = some q ∧
      q ∈ (ps ++ [(p.id, p)]).map (fun kv => kv.2) ∧
      (∀ r ∈ (ps ++ [(p.id, p)]).map (fun kv => kv.2), q.updated_at ≤ r.updated_at) ∧
      add_pattern max_patterns ps p = eraseKey (ps ++ [(p.id, p)]) q.id ∧
      (add_pattern max_patterns ps p).length = max_patterns := by
  have hne : (ps ++ [(p.id, p)]).map (fun kv => kv.2) ≠ [] := by simp
  obtain ⟨q, hq, hqmem, hqle⟩ := firstMinByUpdated_spec _ hne
  have hgt : (ps ++ [(p.id, p)]).length > max_patterns := by
    simp [hfull]
  have hadd : add_pattern max_patterns ps p = eraseKey (ps ++ [(p.id, p)]) q.id := by
    simp only [add_pattern, hnew, if_pos hgt, hq]
  refine ⟨q, hq, hqmem, hqle, hadd, ?_⟩
  rcases List.mem_map.mp hqmem with ⟨kv₁, hkv₁, hv₁⟩
  have hkmem : q.id ∈ (ps ++ [(p.id, p)]).map Prod.fst := by
    refine List.mem_map.mpr ⟨kv₁, hkv₁, ?_⟩
    rw [keysId_append ps p hids kv₁ hkv₁, hv₁]
  have hlen₁ := eraseKey_length _ _ hkmem
  have hlen₂ : (ps ++ [(p.id, p)]).length = ps.length + 1 := by simp
  rw [hadd]
  omega

/-- A second concrete pattern (distinct id, older `updated_at`). -/
def pOld : Pattern :=
  { id := "high_memory_11111111", pattern_type := "high_memory", data := [],
    created_at := 0, updated_at := -5, confidence := 1/2, metadata := [] }

/-- A third concrete pattern (distinct id). -/
def pNew : Pattern :=
  { id := "high_network_22222222", pattern_type := "high_network", data := [],
    created_at := 7, updated_at := 7, confidence := 4/5, metadata := [] }

/-- Witness for C5 at a concrete input: a full 2-entry store plus a new
third pattern evicts the entry with the smallest `updated_at`. -/
theorem eviction_least_recently_updated_witness :
    ∃ q, firstMinByUpdated
          (([(pW.id, pW), (pOld.id, pOld)] ++ [(pNew.id, pNew)]).map (fun kv => kv.2))
          = some q ∧
      q ∈ ([(pW.id, pW), (pOld.id, pOld)] ++ [(pNew.id, pNew)]).map (fun kv => kv.2) ∧
      (∀ r ∈ ([(pW.id, pW), (pOld.id, pOld)] ++ [(pNew.id, pNew)]).map (fun kv => kv.2),
         q.updated_at ≤ r.updated_at) ∧
      add_pattern 2 [(pW.id, pW), (pOld.id, pOld)] pNew
        = eraseKey ([(pW.id, pW), (pOld.id, pOld)] ++ [(pNew.id, pNew)]) q.id ∧
      (add_pattern 2 [(pW.id, pW), (pOld.id, pOld)] pNew).length = 2 := by
  refine eviction_least_recently_updated 2 [(pW.id, pW), (pOld.id, pOld)] pNew ?_ ?_ ?_
  · intro kv hkv
    rcases List.mem_cons.mp hkv with rfl | hkv
    · rfl
    · rcases List.mem_cons.mp hkv with rfl | hkv
      · rfl
      · simp at hkv
  · rfl
  · rfl

/-- C6: merging a candidate into a stored pattern with the same id never
decreases that pattern's confidence and keeps it ≤ 1; and after any
sequence of adds of candidates with confidence ≤ 1 (as all detector
candidates are), every stored confidence is ≤ 1. -/
theorem confidence_monotone_capped :
    (∀ (max_patterns : ℕ) (ps : PatternMap) (p existing : Pattern),
       lookupPattern ps p.id = some existing → existing.confidence ≤ 1 →
       ∃ upd, lookupPattern (add_pattern max_patterns ps p) p.id = some upd ∧
         existing.confidence ≤ upd.confidence ∧ upd.confidence ≤ 1) ∧
    (∀ (max_patterns : ℕ) (cands : List Pattern),
       (∀ c ∈ cands, c.confidence ≤ 1) →
       ∀ kv ∈ cands.foldl (add_pattern max_patterns) [], kv.2.confidence ≤ 1) := by
  constructor
  · intro maxP ps p existing hl hle
    simp only [add_pattern, hl]
    rw [lookup_map_update, hl]
    refine ⟨_, rfl, ?_, ?_⟩
    · show existing.confidence ≤ min 1 (existing.confidence + 1/10)
      refine le_min hle ?_
      linarith
    · exact min_le_left _ _
  · intro maxP cands hc
    exact foldl_add_conf_le maxP cands [] (by simp) hc

/-- Witness for C6 at a concrete input: re-adding `pW` (confidence 1/2)
does not decrease its confidence, and a singleton add sequence keeps all
confidences ≤ 1. -/
theorem confidence_monotone_capped_witness :
    (∃ upd, lookupPattern (add_pattern 10 [(pW.id, pW)] pW) pW.id = some upd ∧
       pW.confidence ≤ upd.confidence ∧ upd.confidence ≤ 1) ∧
    (∀ kv ∈ [pW].foldl (add_pattern 10) [], kv.2.confidence ≤ 1) := by
  constructor
  · refine confidence_monotone_capped.1 10 [(pW.id, pW)] pW pW (by rfl) ?_
    show (1 : ℚ)/2 ≤ 1
    norm_num
  · refine confidence_monotone_capped.2 10 [pW] ?_
    intro c hc
    rcases List.mem_singleton.mp hc with rfl
    show (1 : ℚ)/2 ≤ 1
    norm_num

/-- The spec's confidence formula `clamp(x, lo, hi)`, written from the
spec's words for comparison with the code's `min(1.0, ...)`. -/
def clamp_spec (x lo hi : ℚ) : ℚ := max lo (min hi x)

/-- C7: the `high_cpu` rule fires exactly when `cpu_percent > 80` and the
one-minute load average `> 4.0`; a fired candidate has pattern type
`high_cpu` and confidence `clamp((cpu_percent - 70)/30, 0, 1)`. -/
theorem high_cpu_rule (m : SystemMetrics) :
    ((detect_cpu_pattern m).isSome ↔ (m.cpu_percent > 80 ∧ m.load_avg.one_min > 4)) ∧
    (∀ p, detect_cpu_pattern m = some p →
       p.pattern_type = "high_cpu" ∧
       p.confidence = clamp_spec ((m.cpu_percent - 70) / 30) 0 1) := by
  constructor
  · constructor
    · intro h
      by_contra hc
      rw [detect_cpu_pattern, if_neg hc] at h
      simp at h
    · intro h
      rw [detect_cpu_pattern, if_pos h]
      simp
  · intro p hp
    rw [detect_cpu_pattern] at hp
    split at hp
    case isTrue h =>
      injection hp with hp
      subst hp
      refine ⟨rfl, ?_⟩
      show min 1 ((m.cpu_percent - 70) / 30) = clamp_spec ((m.cpu_percent - 70) / 30) 0 1
      have hx : (0 : ℚ) < (m.cpu_percent - 70) / 30 := by
        have h80 := h.1
        have hnum : (0 : ℚ) < m.cpu_percent - 70 := by linarith
        exact div_pos hnum (by norm_num)
      unfold clamp_spec
      rw [max_eq_right (le_min (by norm_num) (le_of_lt hx))]
    case isFalse h =>
      simp at hp

/-- The spec's C7 scenario snapshot: `cpu_percent 85`, one-minute load 5. -/
def mScenCpu : SystemMetrics :=
  { timestamp := 1000, cpu_percent := 85, memory_percent := 50,
    disk_usage := [], network_io := [], processes := 100,
    load_avg := { one_min := 5, five_min := 3, fifteen_min := 2 },
    boot_time := 0, users := 1 }

/-- Witness for C7: the scenario snapshot fires the rule, and the emitted
candidate's confidence is 1/2 = `clamp((85-70)/30, 0, 1)`. -/
theorem high_cpu_rule_witness :
    (detect_cpu_pattern mScenCpu).isSome = true ∧
    (detect_cpu_pattern mScenCpu).map Pattern.confidence = some (1/2 : ℚ) := by
  have hcond : mScenCpu.cpu_percent > 80 ∧ mScenCpu.load_avg.one_min > 4 := by
    constructor
    · show (85 : ℚ) > 80
      norm_num
    · show (5 : ℚ) > 4
      norm_num
  have hs : (detect_cpu_pattern mScenCpu).isSome := (high_cpu_rule mScenCpu).1.mpr hcond
  refine ⟨hs, ?_⟩
  rcases Option.isSome_iff_exists.mp hs with ⟨p, hp⟩
  have hc := ((high_cpu_rule mScenCpu).2 p hp).2
  rw [hp, Option.map_some', hc]
  have hval : clamp_spec ((mScenCpu.cpu_percent - 70) / 30) 0 1 = 1/2 := by
    show clamp_spec (((85 : ℚ) - 70) / 30) 0 1 = 1/2
    unfold clamp_spec
    rw [show ((85 : ℚ) - 70) / 30 = 1/2 by norm_num]
    rw [min_eq_right (by norm_num : (1 : ℚ)/2 ≤ 1)]
    rw [max_eq_right (by norm_num : (0 : ℚ) ≤ 1/2)]
  rw [hval]

/-- The `interface` entry of a candidate's `data`, as a string. -/
def patternIface (p : Pattern) : Option String :=
  match jlookup p.data "interface" with
  | some (.str s) => some s
  | _ => none

theorem networkStep_emit (m : SystemMetrics) (iface : String) (stats : IfaceStats) (p : Pattern)
    (h : networkStep m iface stats = .emit p) :
    iface ≠ "lo" ∧
    ∃ sent recv, stats.bytes_sent_ps = some sent ∧ stats.bytes_recv_ps = some recv ∧
      (sent > 1000000 ∨ recv > 1000000) ∧
      p = mkNetworkPattern m iface sent recv := by
  by_cases hlo : iface = "lo"
  · rw [networkStep, if_pos (by simpa using hlo)] at h
    cases h
  · rw [networkStep, if_neg (by simpa using hlo)] at h
    refine ⟨hlo, ?_⟩
    cases hsent : stats.bytes_sent_ps with
    | none =>
      rw [hsent] at h
      cases h
    | some sent =>
      simp only [hsent] at h
      by_cases hgt : sent > 1000000
      · rw [if_pos hgt] at h
        cases hrecv : stats.bytes_recv_ps with
        | none =>
          rw [hrecv] at h
          cases h
        | some recv =>
          simp only [hrecv] at h
          injection h with h
          exact ⟨sent, recv, rfl, rfl, Or.inl hgt, h.symm⟩
      · rw [if_neg hgt] at h
        cases hrecv : stats.bytes_recv_ps with
        | none =>
          rw [hrecv] at h
          cases h
        | some recv =>
          simp only [hrecv] at h
          by_cases hgt2 : recv > 1000000
          · rw [if_pos hgt2] at h
            injection h with h
            exact ⟨sent, recv, rfl, rfl, Or.inr hgt2, h.symm⟩
          · rw [if_neg hgt2] at h
            cases h

theorem detect_network_go_emitted (m : SystemMetrics) (l : List (String × IfaceStats)) :
    ∀ p ∈ (detect_network_patterns.go m l).1,
      ∃ iface stats, (iface, stats) ∈ l ∧ networkStep m iface stats = .emit p := by
  induction l with
  | nil =>
    simp [detect_network_patterns.go]
  | cons e rest ih =>
    obtain ⟨iface, stats⟩ := e
    intro p hp
    simp only [detect_network_patterns.go] at hp
    cases hstep : networkStep m iface stats with
    | skip =>
      rw [hstep] at hp
      rcases ih p hp with ⟨i, s, hmem, hs⟩
      exact ⟨i, s, List.mem_cons_of_mem _ hmem, hs⟩
    | emit p0 =>
      rw [hstep] at hp
      have hp' : p ∈ p0 :: (detect_network_patterns.go m rest).1 := hp
      rcases List.mem_cons.mp hp' with rfl | hp''
      · exact ⟨iface, stats, List.mem_cons_self _ _, hstep⟩
      · rcases ih p hp'' with ⟨i, s, hmem, hs⟩
        exact ⟨i, s, List.mem_cons_of_mem _ hmem, hs⟩
    | err e =>
      rw [hstep] at hp
      simp at hp

theorem detect_network_go_ifaces (m : SystemMetrics) (l : List (String × IfaceStats)) :
    ((detect_network_patterns.go m l).1.map patternIface).Sublist
      (l.map (fun kv => some kv.1)) := by
  induction l with
  | nil =>
    simp [detect_network_patterns.go]
  | cons e rest ih =>
    obtain ⟨iface, stats⟩ := e
    rw [List.map_cons]
    cases hstep : networkStep m iface stats with
    | skip =>
      have heq : (detect_network_patterns.go m ((iface, stats) :: rest)).1
          = (detect_network_patterns.go m rest).1 := by
        simp only [detect_network_patterns.go, hstep]
      rw [heq]
      exact ih.cons _
    | emit p0 =>
      have heq : (detect_network_patterns.go m ((iface, stats) :: rest)).1
          = p0 :: (detect_network_patterns.go m rest).1 := by
        simp only [detect_network_patterns.go, hstep]
      rw [heq, List.map_cons]
      have hif : patternIface p0 = some iface := by
        rcases networkStep_emit m iface stats p0 hstep with ⟨_, sent, recv, _, _, _, hp⟩
        rw [hp]
        rfl
      rw [hif]
      exact ih.cons₂ _
    | err e =>
      have heq : (detect_network_patterns.go m ((iface, stats) :: rest)).1 = [] := by
        simp only [detect_network_patterns.go, hstep]
      rw [heq]
      simp

/-- C8: every emitted network candidate has type `high_network` and fixed
confidence 0.8; it originates from a non-loopback interface whose computed
send or receive rate strictly exceeds 1e6 (so a loopback interface, a
rate-less interface — e.g. absent from the previous sample on the first
tick — or one with negative rates never yields a candidate); and with
distinct interface keys at most one candidate is emitted per interface. -/
theorem high_network_rule (m : SystemMetrics) :
    (∀ p ∈ (detect_network_patterns m).1,
       p.pattern_type = "high_network" ∧ p.confidence = 4/5) ∧
    (∀ p ∈ (detect_network_patterns m).1,
       ∃ iface stats, (iface, stats) ∈ m.network_io ∧ iface ≠ "lo" ∧
         patternIface p = some iface ∧
         ∃ sent recv, stats.bytes_sent_ps = some sent ∧ stats.bytes_recv_ps = some recv ∧
           (sent > 1000000 ∨ recv > 1000000)) ∧
    ((m.network_io.map Prod.fst).Nodup →
       ((detect_network_patterns m).1.map patternIface).Nodup) := by
  refine ⟨?_, ?_, ?_⟩
  · intro p hp
    rcases detect_network_go_emitted m m.network_io p hp with ⟨i, s, _, hstep⟩
    rcases networkStep_emit m i s p hstep with ⟨_, sent, recv, _, _, _, hp'⟩
    rw [hp']
    exact ⟨rfl, rfl⟩
  · intro p hp
    rcases detect_network_go_emitted m m.network_io p hp with ⟨i, s, hmem, hstep⟩
    rcases networkStep_emit m i s p hstep with ⟨hlo, sent, recv, hsent, hrecv, hcond, hp'⟩
    refine ⟨i, s, hmem, hlo, ?_, sent, recv, hsent, hrecv, hcond⟩
    rw [hp']
    rfl
  · intro hnd
    refine List.Nodup.sublist (detect_network_go_ifaces m m.network_io) ?_
    have heq : m.network_io.map (fun kv => some kv.1)
        = (m.network_io.map Prod.fst).map some := by
      simp [List.map_map]
    rw [heq]
    exact hnd.map (Option.some_injective String)

/-- Interface stats with given rates and zeroed counters (witness input). -/
def statsOf (sent recv : Option ℚ) : IfaceStats :=
  { bytes_sent := 0, bytes_recv := 0, packets_sent := 0, packets_recv := 0,
    err_in := 0, err_out := 0, drop_in := 0, drop_out := 0,
    bytes_sent_ps := sent, bytes_recv_ps := recv }

/-- The spec's C8 scenario: `eth0` at 2 MB/s sent with a valid baseline,
a loopback interface with a huge rate, a first-tick interface with no
computed rate, and an interface whose rates are negative. -/
def mScenNet : SystemMetrics :=
  { timestamp := 2000, cpu_percent := 10, memory_percent := 10,
    disk_usage := [],
    network_io := [("lo", statsOf (some 5000000) (some 5000000)),
                   ("eth0", statsOf (some 2000000) (some 0)),
                   ("wlan0", statsOf none none),
                   ("eth1", statsOf (some (-3000000)) (some (-1)))],
    processes := 10,
    load_avg := { one_min := 1, five_min := 1, fifteen_min := 1 },
    boot_time := 0, users := 1 }

/-- Witness for C8: on the scenario snapshot the detector yields exactly
one candidate, for `eth0`, and the rule's general properties instantiate. -/
theorem high_network_rule_witness :
    (∀ p ∈ (detect_network_patterns mScenNet).1,
       p.pattern_type = "high_network" ∧ p.confidence = 4/5) ∧
    ((detect_network_patterns mScenNet).1.map patternIface).Nodup ∧
    (detect_network_patterns mScenNet).1.map patternIface = [some "eth0"] := by
  refine ⟨(high_network_rule mScenNet).1, ?_, ?_⟩
  · refine (high_network_rule mScenNet).2.2 ?_
    decide
  · rfl

theorem process_try_fields (maxP : ℕ) (ps : PatternMap) (m : SystemMetrics) :
    (process_try maxP ps (some m)).patterns = run_detectors maxP ps m ∧
    (process_try maxP ps (some m)).err = (detect_network_patterns m).2 ∧
    (process_try maxP ps (some m)).didSave
      = ((detect_network_patterns m).2.isNone
         && ((run_detectors maxP ps m).length % 10 == 0)) := by
  simp only [process_try]
  cases hnet : (detect_network_patterns m).2 with
  | some e => exact ⟨rfl, rfl, rfl⟩
  | none =>
    cases hb : ((run_detectors maxP ps m).length % 10 == 0) with
    | true => simp [hb]
    | false => simp [hb]

/-- A snapshot that trips no detector rule. -/
def mQuiet : SystemMetrics :=
  { timestamp := 1, cpu_percent := 10, memory_percent := 10, disk_usage := [],
    network_io := [], processes := 1,
    load_avg := { one_min := 0, five_min := 0, fifteen_min := 0 },
    boot_time := 0, users := 1 }

/-- C2 counterexample: after the very first processed sample — sample
count 1, not a multiple of 10 — `_save_patterns` nevertheless runs,
because the code keys the save on `len(self.patterns) % 10 == 0` (here 0
stored patterns), not on the number of processed samples. -/
theorem save_schedule_counterexample :
    (runProcess defaultConfig [] [some mQuiet]).2 = [true] ∧ 1 % 10 ≠ 0 := by
  exact ⟨rfl, by decide⟩

/-- C2 (amended): `_save_patterns` runs on a `process` call exactly when
learning is enabled, the try body raised no error, and the number of
stored patterns after that sample's detections is a multiple of 10 (not
when the number of processed samples is); `cleanup` always runs one final
save. -/
theorem save_on_pattern_count (cfg : Config) (ps : PatternMap) (m? : Option SystemMetrics) :
    ((process cfg ps m?).2 = true ↔
      (cfg.learning.enabled = true ∧
       (process_try cfg.learning.max_patterns ps m?).err = none ∧
       (process cfg ps m?).1.length % 10 = 0)) ∧
    cleanup_runs_save = true := by
  refine ⟨?_, rfl⟩
  cases hen : cfg.learning.enabled with
  | false =>
    simp [process, hen]
  | true =>
    simp only [process, hen, if_true]
    cases m? with
    | none => simp [process_try]
    | some m =>
      obtain ⟨hpat, herr, hsave⟩ := process_try_fields cfg.learning.max_patterns ps m
      rw [hsave, herr, hpat]
      simp [Bool.and_eq_true, Option.isNone_iff_eq_none, Nat.beq_eq_true_eq]

/-- Witness for C2 (amended) at a concrete input: the quiet first sample
saves (population size 0 is a multiple of 10) with no error raised. -/
theorem save_on_pattern_count_witness :
    ((process defaultConfig [] (some mQuiet)).2 = true ↔
      (defaultConfig.learning.enabled = true ∧
       (process_try defaultConfig.learning.max_patterns [] (some mQuiet)).err = none ∧
       (process defaultConfig [] (some mQuiet)).1.length % 10 = 0)) ∧
    cleanup_runs_save = true :=
  save_on_pattern_count defaultConfig [] (some mQuiet)

theorem heapModify_get? (f : SystemMetrics → SystemMetrics) (l : List SystemMetrics) (r : ℕ) :
    (heapModify f r l).get? r = (l.get? r).map f := by
  induction l generalizing r with
  | nil => cases r <;> rfl
  | cons o os ih =>
    cases r with
    | zero => rfl
    | succ n =>
      simp only [heapModify, List.get?_cons_succ]
      exact ih n

/-- Load average record used in monitor scenarios. -/
def laQuiet : LoadAvg := { one_min := 1, five_min := 1, fifteen_min := 1 }

/-- The monitor state after the first CPU merge (cpu 50). -/
def stFirst : MonitorState :=
  monitor_cpu_merge { heap := [], cache := none } 100 50 laQuiet 5 2

/-- The state after a second CPU merge (cpu 90) mutating the same object. -/
def stSecond : MonitorState := monitor_cpu_merge stFirst 200 90 laQuiet 5 2

/-- C3 counterexample: `get_metrics` hands out the snapshot reference
itself (no copy); the next CPU merge mutates that object in place, so the
value read through the reference returned by the earlier `get_metrics`
call changes from cpu 50 to cpu 90. -/
theorem get_metrics_alias_counterexample :
    get_metrics stFirst = some 0 ∧
    (derefMetrics stFirst 0).map SystemMetrics.cpu_percent = some 50 ∧
    (derefMetrics stSecond 0).map SystemMetrics.cpu_percent = some 90 ∧
    (50 : ℚ) ≠ 90 :=
  ⟨rfl, rfl, rfl, by norm_num⟩

/-- C3 (amended): before the first sample `get_metrics` returns the
no-data indicator `None`; afterwards it returns the shared snapshot
reference without copying, so a collector merge performed after a
`get_metrics` call is visible through the reference that call returned. -/
theorem get_metrics_returns_alias :
    (∀ st : MonitorState, st.cache = none → get_metrics st = none) ∧
    (∀ (st : MonitorState) (r : ℕ) (now cpu : ℚ) (la : LoadAvg) (boot : ℚ) (users : ℤ),
       st.cache = some r → r < st.heap.length →
       get_metrics st = some r ∧
       ∃ o, derefMetrics st r = some o ∧
         derefMetrics (monitor_cpu_merge st now cpu la boot users) r
           = some { o with cpu_percent := cpu, load_avg := la }) := by
  constructor
  · intro st h
    exact h
  · intro st r now cpu la boot users hc hr
    refine ⟨hc, st.heap.get ⟨r, hr⟩, List.get?_eq_get hr, ?_⟩
    show (monitor_cpu_merge st now cpu la boot users).heap.get? r = _
    simp only [monitor_cpu_merge, hc]
    rw [heapModify_get?, List.get?_eq_get hr]
    rfl

/-- Witness for C3 (amended) at concrete inputs: the empty state returns
`None`; after the first merge the returned reference aliases the store. -/
theorem get_metrics_returns_alias_witness :
    get_metrics { heap := ([] : List SystemMetrics), cache := none } = none ∧
    (get_metrics stFirst = some 0 ∧
     ∃ o, derefMetrics stFirst 0 = some o ∧
       derefMetrics (monitor_cpu_merge stFirst 200 90 laQuiet 5 2) 0
         = some { o with cpu_percent := 90, load_avg := laQuiet }) := by
  constructor
  · exact get_metrics_returns_alias.1 _ rfl
  · exact get_metrics_returns_alias.2 stFirst 0 200 90 laQuiet 5 2 rfl (by decide)

/-- The well-formed leading entries of a `patterns` list, up to the first
malformed one (the ones `_load_patterns` inserts before the raised error). -/
def wellFormedLead : List EntryDoc → List Pattern
  | [] => []
  | .good p :: rest => p :: wellFormedLead rest
  | .bad :: _ => []

theorem loadEntries_eq_foldl (es : List EntryDoc) (ps : PatternMap) :
    loadEntries ps es = (wellFormedLead es).foldl dictInsertPattern ps := by
  induction es generalizing ps with
  | nil => rfl
  | cons e rest ih =>
    cases e with
    | good p => exact ih (dictInsertPattern ps p)
    | bad => rfl

/-- C9 counterexample: a document holding one valid entry followed by a
malformed one is not a well-formed pattern document, yet loading it
leaves a *non-empty* population — the valid entries inserted before the
caught error remain. -/
theorem load_patterns_counterexample :
    load_patterns (some (.parsed (some [.good pW, .bad]))) [] = [(pW.id, pW)] ∧
    ([(pW.id, pW)] : PatternMap) ≠ [] :=
  ⟨rfl, by simp⟩

/-- C9 (amended): `_load_patterns` never raises; a missing file or an
unparsable document leaves the starting population empty; a parsed
document loads exactly its leading well-formed entries, so a document
that fails midway leaves the entries loaded before the failure. -/
theorem load_patterns_never_fatal :
    load_patterns none [] = [] ∧
    load_patterns (some .malformed) [] = [] ∧
    load_patterns (some (.parsed none)) [] = [] ∧
    (∀ entries : List EntryDoc,
       load_patterns (some (.parsed (some entries))) []
         = (wellFormedLead entries).foldl dictInsertPattern []) :=
  ⟨rfl, rfl, rfl, fun entries => loadEntries_eq_foldl entries []⟩

theorem process_try_err_no_save (maxP : ℕ) (ps : PatternMap) (m? : Option SystemMetrics)
    (e : PyErr) (h : (process_try maxP ps m?).err = some e) :
    (process_try maxP ps m?).didSave = false := by
  cases m? with
  | none => rfl
  | some m =>
    obtain ⟨_, herr, hsave⟩ := process_try_fields maxP ps m
    rw [herr] at h
    rw [hsave, h]
    rfl

/-- C10: `process` never propagates an exception and is a no-op when
learning is disabled: with `learning.enabled = false` it returns at once
with the population (hence the pattern file) untouched and no save; any
error raised inside the try body — including the `TypeError` from a
`None` metrics value — is caught, yielding the partial state with no
save. -/
theorem process_never_raises :
    (∀ (cfg : Config) (ps : PatternMap) (m? : Option SystemMetrics),
       cfg.learning.enabled = false → process cfg ps m? = (ps, false)) ∧
    (∀ (cfg : Config) (ps : PatternMap) (m? : Option SystemMetrics) (e : PyErr),
       cfg.learning.enabled = true →
       (process_try cfg.learning.max_patterns ps m?).err = some e →
       process cfg ps m?
         = ((process_try cfg.learning.max_patterns ps m?).patterns, false)) ∧
    (∀ (cfg : Config) (ps : PatternMap), process cfg ps none = (ps, false)) := by
  refine ⟨?_, ?_, ?_⟩
  · intro cfg ps m? h
    simp [process, h]
  · intro cfg ps m? e hen herr
    simp only [process, hen, if_true]
    rw [process_try_err_no_save cfg.learning.max_patterns ps m? e herr]
  · intro cfg ps
    cases hen : cfg.learning.enabled with
    | false => simp [process, hen]
    | true =>
      simp only [process, hen, if_true]
      rfl

/-- Config with learning disabled. -/
def cfgOff : Config :=
  { learning := { enabled := false, interval := 60, batch_size := 100, max_patterns := 1000 } }

/-- Witness for C10 at concrete inputs: disabled learning is a no-op, a
`None` metrics value is caught (partial state, no save), and `process`
returns normally. -/
theorem process_never_raises_witness :
    process cfgOff [] (some mQuiet) = ([], false) ∧
    process defaultConfig [] none
      = ((process_try defaultConfig.learning.max_patterns [] none).patterns, false) ∧
    process defaultConfig [] none = ([], false) :=
  ⟨process_never_raises.1 cfgOff [] (some mQuiet) rfl,
   process_never_raises.2.1 defaultConfig [] none PyErr.typeError rfl rfl,
   process_never_raises.2.2 defaultConfig []⟩

end Maya
